import Mathlib

set_option maxRecDepth 100000

/-!
Verification of the herbadis/website repository against its specification.

The repository has two parts:

1. The Discogs collection-sync pipeline (fetch paginated collection pages,
   render an HTML fragment, write it to a destination).  The pipeline script
   itself (`scripts/sync_discogs_collection.py` and the Lambda variant) is not
   part of the checked-in sources here; only its documentation and callers
   are.  Those parts are therefore modelled from the specification, as marked
   on each definition.

2. The front-end animation code in `js/animations.js`, which is embedded
   directly from the source.
-/

/-! ## Data model of the collection-sync pipeline -/

/-- Modelled from the spec: an Item Record, one entry of the remote
collection.  Its attributes are a subset of {title, artist, year, format,
catalog number, cover image URL, date added}, so every field is optional. -/
structure ItemRecord where
  title : Option String
  artist : Option String
  year : Option String
  format : Option String
  catalogNumber : Option String
  coverImageUrl : Option String
  dateAdded : Option String
deriving DecidableEq

/-- Modelled from the spec: a Page, a bounded batch of Item Records plus
pagination metadata (current page number, total pages). -/
structure Page where
  records : List ItemRecord
  page : Nat
  pages : Nat
deriving DecidableEq

/-- Modelled from the spec: a fetch failure — a network error or a
non-success HTTP status. -/
inductive FetchError where
  | networkError
  | httpStatus (code : Nat)
deriving DecidableEq

/-- Modelled from the spec: a write failure (destination unwritable). -/
inductive WriteError where
  | destinationUnwritable
deriving DecidableEq

/-! ## Collection Fetcher -/

/-- Modelled from the spec: the remote API as a function from a page number
to either that page or a fetch failure.  `apiOf pgs` is the well-behaved API
serving the fixed page sequence `pgs` (page `i` of the API is entry `i - 1`
of the list). -/
def apiOf (pgs : List Page) : Nat → Except FetchError Page := fun i =>
  match pgs[i - 1]? with
  | some p => Except.ok p
  | none => Except.error FetchError.networkError

/-- Modelled from the spec: an API identical to `apiOf pgs` except that the
request for page `j` fails with error `e`. -/
def failAt (pgs : List Page) (j : Nat) (e : FetchError) : Nat → Except FetchError Page :=
  fun i => if i = j then Except.error e else apiOf pgs i

/-- Modelled from the spec: fetch `count` further pages sequentially,
starting at page number `next`.  Returns the list of page numbers actually
requested, in order, together with either the concatenated records or the
first fetch failure.  A failed request aborts immediately (no retry). -/
def fetchPages (api : Nat → Except FetchError Page) :
    Nat → Nat → List Nat × Except FetchError (List ItemRecord)
  | _, 0 => ([], Except.ok [])
  | next, Nat.succ k =>
    match api next with
    | Except.error e => ([next], Except.error e)
    | Except.ok p =>
      let rest := fetchPages api (next + 1) k
      (next :: rest.1,
        match rest.2 with
        | Except.error e => Except.error e
        | Except.ok items => Except.ok (p.records ++ items))

/-- Modelled from the spec: the Collection Fetcher.  Requests page 1, reads
the total-page count from that page's metadata, then fetches pages 2, 3, …
sequentially up to that count, concatenating all records in API order.
Returns the request log (page numbers, in request order) and the outcome. -/
def fetchCollection (api : Nat → Except FetchError Page) :
    List Nat × Except FetchError (List ItemRecord) :=
  match api 1 with
  | Except.error e => ([1], Except.error e)
  | Except.ok first =>
    let rest := fetchPages api 2 (first.pages - 1)
    (1 :: rest.1,
      match rest.2 with
      | Except.error e => Except.error e
      | Except.ok items => Except.ok (first.records ++ items))

/-- A valid paginated input: a nonempty page sequence whose metadata is
consistent — entry `i` carries current-page number `i + 1` and the true
total-page count. -/
def ValidPaginated (pgs : List Page) : Prop :=
  pgs ≠ [] ∧ ∀ i, (h : i < pgs.length) →
    (pgs.get ⟨i, h⟩).page = i + 1 ∧ (pgs.get ⟨i, h⟩).pages = pgs.length

instance (pgs : List Page) : Decidable (ValidPaginated pgs) := by
  unfold ValidPaginated
  infer_instance

/-! ## Fetcher lemmas -/

/-- On an all-successful range, `fetchPages` requests exactly the scheduled
page numbers and concatenates the pages' records in order. -/
theorem fetchPages_ok (api : Nat → Except FetchError Page) (g : Nat → Page) :
    ∀ (count next : Nat), (∀ k, k < count → api (next + k) = Except.ok (g (next + k))) →
    fetchPages api next count =
      ((List.range count).map (next + ·),
        Except.ok ((List.range count).map (fun k => (g (next + k)).records)).flatten) := by
  intro count
  induction count with
  | zero => intro next _; simp [fetchPages]
  | succ k ih =>
    intro next h
    have h0 : api next = Except.ok (g next) := by
      have := h 0 (Nat.succ_pos k)
      simpa using this
    have hrest : ∀ j, j < k → api (next + 1 + j) = Except.ok (g (next + 1 + j)) := by
      intro j hj
      have := h (j + 1) (Nat.succ_lt_succ hj)
      have e : next + (j + 1) = next + 1 + j := by omega
      rw [e] at this
      exact this
    have hfp := ih (next + 1) hrest
    have e1 : List.map (fun x => next + (x + 1)) (List.range k) =
        List.map (fun x => next + 1 + x) (List.range k) := by
      apply List.map_congr_left; intro a _; omega
    have e2 : List.map (fun x => (g (next + (x + 1))).records) (List.range k) =
        List.map (fun x => (g (next + 1 + x)).records) (List.range k) := by
      apply List.map_congr_left
      intro a _
      have e : next + (a + 1) = next + 1 + a := by omega
      rw [e]
    simp only [fetchPages, h0]
    rw [hfp]
    simp only [List.range_succ_eq_map, List.map_cons, List.map_map, Function.comp_def,
      Nat.add_zero, List.flatten_cons, Prod.mk.injEq]
    refine ⟨?_, ?_⟩
    · rw [e1]
    · rw [e2]

example : fetchPages (apiOf [⟨[], 1, 1⟩]) 1 1 = ([1], Except.ok []) := by rfl

/-- Default page used with `List.getD` when indexing page lists. -/
def defaultPage : Page := ⟨[], 0, 0⟩

/-- Enumerating a list by `getD` over its range of positions gives the list back. -/
theorem map_getD_range {α : Type} (l : List α) (d : α) :
    (List.range l.length).map (fun k => l.getD k d) = l := by
  induction l with
  | nil => simp
  | cons a tl ih =>
    rw [List.length_cons, List.range_succ_eq_map]
    simp only [List.map_cons, List.getD_cons_zero, List.map_map, Function.comp_def,
      List.getD_cons_succ]
    rw [ih]

/-- The well-behaved API `apiOf pgs` answers every in-range page request. -/
theorem apiOf_ok (pgs : List Page) (i : Nat) (h1 : 1 ≤ i) (h2 : i ≤ pgs.length) :
    apiOf pgs i = Except.ok (pgs.getD (i - 1) defaultPage) := by
  have hlt : i - 1 < pgs.length := by omega
  unfold apiOf
  rw [List.getElem?_eq_getElem hlt, List.getD_eq_getElem?_getD, List.getElem?_eq_getElem hlt]
  rfl

/-- The request log of `fetchPages` is a prefix of the scheduled page range. -/
theorem fetchPages_log_prefix (api : Nat → Except FetchError Page) :
    ∀ (count next : Nat), (fetchPages api next count).1 <+: (List.range count).map (next + ·) := by
  intro count
  induction count with
  | zero => intro next; simp [fetchPages]
  | succ k ih =>
    intro next
    have esched : (List.range (k + 1)).map (next + ·) =
        next :: (List.range k).map (next + 1 + ·) := by
      rw [List.range_succ_eq_map]
      simp only [List.map_cons, Nat.add_zero, List.map_map, Function.comp_def]
      congr 1
      apply List.map_congr_left
      intro a _
      omega
    rw [esched]
    unfold fetchPages
    cases hapi : api next with
    | error e =>
      simp only
      exact (List.cons_prefix_cons).mpr ⟨rfl, List.nil_prefix⟩
    | ok p =>
      simp only
      exact (List.cons_prefix_cons).mpr ⟨rfl, ih (next + 1)⟩

/-- Every run of the fetcher requests each page number at most once:
the request log has no duplicates, whatever the API does. -/
theorem fetchCollection_log_nodup (api : Nat → Except FetchError Page) :
    (fetchCollection api).1.Nodup := by
  unfold fetchCollection
  cases hapi : api 1 with
  | error e => simp
  | ok first =>
    simp only [List.nodup_cons]
    have hpre := fetchPages_log_prefix api (first.pages - 1) 2
    have hsched : ((List.range (first.pages - 1)).map (2 + ·)).Nodup := by
      apply List.Nodup.map
      · intro a b hab
        simp only at hab
        omega
      · exact List.nodup_range _
    refine ⟨?_, hpre.sublist.nodup hsched⟩
    intro hmem
    have := hpre.sublist.subset hmem
    rw [List.mem_map] at this
    obtain ⟨a, _, ha⟩ := this
    omega

/-- If some scheduled request fails (all earlier ones succeeding), the
whole `fetchPages` run returns that error. -/
theorem fetchPages_err (api : Nat → Except FetchError Page) (e : FetchError) :
    ∀ (count next k0 : Nat), k0 < count → api (next + k0) = Except.error e →
    (∀ k, k < k0 → ∃ p, api (next + k) = Except.ok p) →
    (fetchPages api next count).2 = Except.error e := by
  intro count
  induction count with
  | zero => intro next k0 h; omega
  | succ c ih =>
    intro next k0 hk0 herr hok
    cases k0 with
    | zero =>
      simp only [Nat.add_zero] at herr
      simp [fetchPages, herr]
    | succ k0h =>
      obtain ⟨p, hp⟩ := hok 0 (Nat.succ_pos k0h)
      simp only [Nat.add_zero] at hp
      have herrs : api (next + 1 + k0h) = Except.error e := by
        have e1 : next + 1 + k0h = next + (k0h + 1) := by omega
        rw [e1]; exact herr
      have hoks : ∀ k, k < k0h → ∃ q, api (next + 1 + k) = Except.ok q := by
        intro k hk
        have e1 : next + 1 + k = next + (k + 1) := by omega
        rw [e1]
        exact hok (k + 1) (Nat.succ_lt_succ hk)
      have hrest := ih (next + 1) k0h (Nat.lt_of_succ_lt_succ hk0) herrs hoks
      simp only [fetchPages, hp]
      rw [hrest]

/-! ## Claim theorems about the fetcher -/

/-- C1: for every valid paginated input, the fetcher returns exactly the
concatenation of all pages' record lists in API order, so the final item
count equals the sum of the per-page counts and no client-side sorting is
applied. -/
theorem fetcher_concatenates_pages (pgs : List Page) (h : ValidPaginated pgs) :
    (fetchCollection (apiOf pgs)).2 = Except.ok ((pgs.map Page.records).flatten) ∧
    ((pgs.map Page.records).flatten).length = (pgs.map (fun p => p.records.length)).sum := by
  obtain ⟨hne, hmeta⟩ := h
  constructor
  · cases pgs with
    | nil => exact absurd rfl hne
    | cons p0 tl =>
      have hapi1 : apiOf (p0 :: tl) 1 = Except.ok p0 := by
        have := apiOf_ok (p0 :: tl) 1 (le_refl 1) (by simp)
        simpa using this
      have hpages : p0.pages = tl.length + 1 := by
        have := (hmeta 0 (by simp)).2
        simpa using this
      have hrec : ∀ k, k < tl.length → apiOf (p0 :: tl) (2 + k) =
          Except.ok ((fun i => (p0 :: tl).getD (i - 1) defaultPage) (2 + k)) := by
        intro k hk
        exact apiOf_ok (p0 :: tl) (2 + k) (by omega) (by simp; omega)
      have hfp := fetchPages_ok (apiOf (p0 :: tl))
        (fun i => (p0 :: tl).getD (i - 1) defaultPage) tl.length 2 hrec
      have hmapg : (List.range tl.length).map
          (fun k => ((fun i => (p0 :: tl).getD (i - 1) defaultPage) (2 + k)).records) =
          tl.map Page.records := by
        have efun : (fun k => ((fun i => (p0 :: tl).getD (i - 1) defaultPage) (2 + k)).records) =
            (fun k => (tl.getD k defaultPage).records) := by
          funext k
          have e2 : 2 + k - 1 = k + 1 := by omega
          simp only [e2, List.getD_cons_succ]
        rw [efun]
        have emap := map_getD_range tl defaultPage
        calc (List.range tl.length).map (fun k => (tl.getD k defaultPage).records)
            = ((List.range tl.length).map (fun k => tl.getD k defaultPage)).map Page.records := by
              simp only [List.map_map, Function.comp_def]
          _ = tl.map Page.records := by rw [emap]
      simp only [fetchCollection, hapi1, hpages, Nat.add_sub_cancel]
      rw [hfp]
      simp only [hmapg, List.map_cons, List.flatten_cons]
  · simp only [List.length_flatten, List.map_map, Function.comp_def]

/-- C6: the fetcher requests pages sequentially starting at page 1, stopping
at the total-page count reported by the first page; with a reported total of
1 it returns exactly the first page's records and issues no second request. -/
theorem fetcher_single_page_stop (pgs : List Page) (h : ValidPaginated pgs) :
    (fetchCollection (apiOf pgs)).1 = (List.range pgs.length).map (· + 1) ∧
    (pgs.length = 1 →
      fetchCollection (apiOf pgs) = ([1], Except.ok ((pgs.getD 0 defaultPage).records))) := by
  obtain ⟨hne, hmeta⟩ := h
  cases pgs with
  | nil => exact absurd rfl hne
  | cons p0 tl =>
    have hapi1 : apiOf (p0 :: tl) 1 = Except.ok p0 := by
      have := apiOf_ok (p0 :: tl) 1 (le_refl 1) (by simp)
      simpa using this
    have hpages : p0.pages = tl.length + 1 := by
      have := (hmeta 0 (by simp)).2
      simpa using this
    have hrec : ∀ k, k < tl.length → apiOf (p0 :: tl) (2 + k) =
        Except.ok ((fun i => (p0 :: tl).getD (i - 1) defaultPage) (2 + k)) := by
      intro k hk
      exact apiOf_ok (p0 :: tl) (2 + k) (by omega) (by simp; omega)
    have hfp := fetchPages_ok (apiOf (p0 :: tl))
      (fun i => (p0 :: tl).getD (i - 1) defaultPage) tl.length 2 hrec
    constructor
    · simp only [fetchCollection, hapi1, hpages, Nat.add_sub_cancel]
      rw [hfp]
      simp only [List.length_cons, List.range_succ_eq_map, List.map_cons, Nat.zero_add,
        List.map_map, Function.comp_def]
      congr 1
      apply List.map_congr_left
      intro a _
      omega
    · intro hlen
      have htl : tl = [] := by
        have : tl.length = 0 := by simpa using hlen
        exact List.length_eq_zero.mp this
      subst htl
      simp only [fetchCollection, hapi1, hpages, Nat.add_sub_cancel]
      simp [fetchPages]

/-- C4: if any single page request fails, the whole fetch aborts with that
fetch error surfaced to the caller, and the failed request is issued at most
once — the request log has no duplicates, so no automatic retry happens. -/
theorem fetcher_failed_page_aborts (pgs : List Page) (j : Nat) (e : FetchError)
    (h : ValidPaginated pgs) (h1 : 1 ≤ j) (h2 : j ≤ pgs.length) :
    (fetchCollection (failAt pgs j e)).2 = Except.error e ∧
    (fetchCollection (failAt pgs j e)).1.Nodup ∧
    (fetchCollection (failAt pgs j e)).1.count j ≤ 1 := by
  obtain ⟨hne, hmeta⟩ := h
  refine ⟨?_, fetchCollection_log_nodup _,
    List.nodup_iff_count_le_one.mp (fetchCollection_log_nodup _) j⟩
  by_cases hj1 : j = 1
  · subst hj1
    have hfail : failAt pgs 1 e 1 = Except.error e := by
      simp [failAt]
    simp [fetchCollection, hfail]
  · cases pgs with
    | nil => exact absurd rfl hne
    | cons p0 tl =>
      have hapi1 : failAt (p0 :: tl) j e 1 = Except.ok p0 := by
        have hok : apiOf (p0 :: tl) 1 = Except.ok p0 := by
          have := apiOf_ok (p0 :: tl) 1 (le_refl 1) (by simp)
          simpa using this
        simp only [failAt, if_neg (by omega : ¬ (1 : Nat) = j)]
        exact hok
      have hpages : p0.pages = tl.length + 1 := by
        have := (hmeta 0 (by simp)).2
        simpa using this
      have hlen : j ≤ tl.length + 1 := by simpa using h2
      have herr : failAt (p0 :: tl) j e (2 + (j - 2)) = Except.error e := by
        have e1 : 2 + (j - 2) = j := by omega
        rw [e1]
        simp [failAt]
      have hearly : ∀ k, k < j - 2 → ∃ p, failAt (p0 :: tl) j e (2 + k) = Except.ok p := by
        intro k hk
        refine ⟨(p0 :: tl).getD (2 + k - 1) defaultPage, ?_⟩
        have hne2 : ¬ (2 + k = j) := by omega
        simp only [failAt, if_neg hne2]
        exact apiOf_ok (p0 :: tl) (2 + k) (by omega) (by simp; omega)
      have hk0 : j - 2 < tl.length := by omega
      have hrest := fetchPages_err (failAt (p0 :: tl) j e) e tl.length 2 (j - 2) hk0 herr hearly
      simp only [fetchCollection, hapi1, hpages, Nat.add_sub_cancel]
      rw [hrest]

/-! ## HTML Renderer -/

/-- Modelled from the spec: an absent field renders as the empty string. -/
def renderField (f : Option String) : String := f.getD ""

/-- Modelled from the spec: opening markup of the surrounding fragment. -/
def fragmentHeader : String := "<ul class=\"records\">"

/-- Modelled from the spec: closing markup of the surrounding fragment. -/
def fragmentFooter : String := "</ul>"

/-- Modelled from the spec: opening markup of one entry block. -/
def entryOpen : String := "<li class=\"record\">"

/-- Modelled from the spec: closing markup of one entry block. -/
def entryClose : String := "</li>"

/-- Modelled from the spec: closing markup of a field placeholder. -/
def spanClose : String := "</span>"

/-- Modelled from the spec: opening markup of the title placeholder. -/
def titleOpen : String := "<span class=\"title\">"

/-- Modelled from the spec: opening markup of the artist placeholder. -/
def artistOpen : String := "<span class=\"artist\">"

/-- Modelled from the spec: opening markup of the year placeholder. -/
def yearOpen : String := "<span class=\"year\">"

/-- Modelled from the spec: opening markup of the format placeholder. -/
def formatOpen : String := "<span class=\"format\">"

/-- Modelled from the spec: opening markup of the catalog-number placeholder. -/
def catalogOpen : String := "<span class=\"catalog\">"

/-- Modelled from the spec: opening markup of the cover-image placeholder. -/
def coverOpen : String := "<span class=\"cover\">"

/-- Modelled from the spec: opening markup of the date-added placeholder. -/
def dateAddedOpen : String := "<span class=\"added\">"

/-- Modelled from the spec: the fixed markup block for one Item Record,
substituting the record's fields into the known placeholders; a field absent
from the record renders as empty rather than failing. -/
def renderEntry (r : ItemRecord) : String :=
  entryOpen ++
  titleOpen ++ renderField r.title ++ spanClose ++
  artistOpen ++ renderField r.artist ++ spanClose ++
  yearOpen ++ renderField r.year ++ spanClose ++
  formatOpen ++ renderField r.format ++ spanClose ++
  catalogOpen ++ renderField r.catalogNumber ++ spanClose ++
  coverOpen ++ renderField r.coverImageUrl ++ spanClose ++
  dateAddedOpen ++ renderField r.dateAdded ++ spanClose ++
  entryClose

/-- Modelled from the spec: concatenation of the entry blocks, in input order. -/
def renderEntries : List ItemRecord → String
  | [] => ""
  | r :: rest => renderEntry r ++ renderEntries rest

/-- Modelled from the spec: the HTML Renderer — the fragment is the fixed
surrounding markup around one entry block per record, in input order. -/
def renderList (rs : List ItemRecord) : String :=
  fragmentHeader ++ renderEntries rs ++ fragmentFooter

/-! ## Re-parsing the fragment -/

/-- The title-placeholder opening tag, as a character list. -/
def tagTitle : List Char := titleOpen.data

/-- Characters of a title up to the closing markup (the next `<`). -/
def takeTitle : List Char → List Char
  | [] => []
  | c :: cs => if c = '<' then [] else c :: takeTitle cs

/-- Scan a character stream for title-placeholder tags; at each occurrence
record the following characters up to the next `<`. -/
def extractTitles : List Char → List (List Char)
  | [] => []
  | c :: cs =>
    if tagTitle.isPrefixOf (c :: cs) then
      takeTitle (List.drop (tagTitle.length - 1) cs) :: extractTitles cs
    else
      extractTitles cs

/-- Re-parse an HTML fragment: the titles of its entry blocks, in order. -/
def parseTitles (s : String) : List String :=
  (extractTitles s.data).map (fun cs => String.mk cs)

/-- Count the occurrences of a pattern in a character stream. -/
def countOcc (pat : List Char) : List Char → Nat
  | [] => 0
  | c :: cs => (if pat.isPrefixOf (c :: cs) then 1 else 0) + countOcc pat cs

/-- Number of entry blocks of a fragment: occurrences of the entry-open markup. -/
def countEntryBlocks (s : String) : Nat := countOcc entryOpen.data s.data

example : parseTitles (renderList [⟨some "A", none, none, none, none, none, none⟩,
    ⟨some "B", some "x", none, none, none, none, none⟩]) = ["A", "B"] := by decide

example : countEntryBlocks (renderList []) = 0 := by decide

/-! ## Scanning lemmas for the round-trip property -/

/-- The title tag without its leading `<`. -/
def tagTail : List Char := "span class=\"title\">".data

/-- The closing placeholder markup without its leading `<`. -/
def spanCloseTail : List Char := "/span>".data

/-- A chunk of markup is safe when no nonempty suffix of it matches the
title tag either way round the prefix order: scanning such a chunk can never
see the title tag, even with arbitrary text appended after the chunk. -/
def SafeChunk (seg : List Char) : Prop :=
  ∀ s ∈ seg.tails, s ≠ [] →
    s.isPrefixOf tagTitle = false ∧ tagTitle.isPrefixOf s = false

instance (seg : List Char) : Decidable (SafeChunk seg) := by
  unfold SafeChunk
  infer_instance

/-- A safe chunk stays safe after dropping its first character. -/
theorem safeChunk_cons (c : Char) (cs : List Char) (h : SafeChunk (c :: cs)) :
    SafeChunk cs := by
  intro s hs hne
  refine h s ?_ hne
  rw [List.tails_cons]
  exact List.mem_cons_of_mem _ hs

/-- A safe chunk is itself unrelated to the title tag by the prefix order. -/
theorem safeChunk_head (c : Char) (cs : List Char) (h : SafeChunk (c :: cs)) :
    (c :: cs).isPrefixOf tagTitle = false ∧ tagTitle.isPrefixOf (c :: cs) = false := by
  refine h (c :: cs) ?_ (by simp)
  rw [List.tails_cons]
  exact List.mem_cons_self _ _

/-- The tag cannot match at the start of a safe chunk, whatever follows. -/
theorem not_tag_match_append (a rest : List Char)
    (h1 : a.isPrefixOf tagTitle = false) (h2 : tagTitle.isPrefixOf a = false) :
    ¬ tagTitle.isPrefixOf (a ++ rest) = true := by
  intro hp
  rw [List.isPrefixOf_iff_prefix] at hp
  have hsplit := List.prefix_or_prefix_of_prefix hp (List.prefix_append a rest)
  rcases hsplit with hta | hat
  · rw [← List.isPrefixOf_iff_prefix] at hta
    rw [hta] at h2
    exact absurd h2 (by simp)
  · rw [← List.isPrefixOf_iff_prefix] at hat
    rw [hat] at h1
    exact absurd h1 (by simp)

/-- Scanning a safe chunk finds nothing: the scan just passes through. -/
theorem extractTitles_append_safe (seg : List Char) (rest : List Char) (h : SafeChunk seg) :
    extractTitles (seg ++ rest) = extractTitles rest := by
  induction seg with
  | nil => rfl
  | cons c cs ih =>
    have hh := safeChunk_head c cs h
    have hfalse : ¬ tagTitle.isPrefixOf ((c :: cs) ++ rest) = true :=
      not_tag_match_append (c :: cs) rest hh.1 hh.2
    rw [List.cons_append] at hfalse
    rw [List.cons_append]
    rw [extractTitles, if_neg hfalse]
    exact ih (safeChunk_cons c cs h)

/-- A string of characters other than `<` forms a safe chunk, since the
title tag opens with `<`. -/
theorem safeChunk_of_no_lt (t : List Char) (h : ∀ c ∈ t, c ≠ '<') : SafeChunk t := by
  intro s hs hne
  rw [List.mem_tails] at hs
  cases s with
  | nil => exact absurd rfl hne
  | cons c cs =>
    have hc : c ∈ t := hs.sublist.subset (List.mem_cons_self c cs)
    have hclt : c ≠ '<' := h c hc
    have htag : tagTitle = '<' :: tagTail := by decide
    constructor
    · rw [Bool.eq_false_iff]
      intro hp
      rw [List.isPrefixOf_iff_prefix, htag, List.cons_prefix_cons] at hp
      exact hclt hp.1
    · rw [Bool.eq_false_iff]
      intro hp
      rw [List.isPrefixOf_iff_prefix, htag, List.cons_prefix_cons] at hp
      exact hclt hp.1.symm

/-- Concatenating safe chunks gives a safe chunk. -/
theorem safeChunk_append (a b : List Char) (ha : SafeChunk a) (hb : SafeChunk b) :
    SafeChunk (a ++ b) := by
  induction a with
  | nil => simpa using hb
  | cons c cs ih =>
    intro s hs hne
    rw [List.cons_append, List.tails_cons] at hs
    rcases List.mem_cons.mp hs with hhd | htl
    · have hh := safeChunk_head c cs ha
      subst hhd
      rw [← List.cons_append]
      constructor
      · rw [Bool.eq_false_iff]
        intro hp
        rw [List.isPrefixOf_iff_prefix] at hp
        have h1 : (c :: cs) <+: ((c :: cs) ++ b) := List.prefix_append _ _
        have h2 : (c :: cs) <+: tagTitle := h1.trans hp
        rw [← List.isPrefixOf_iff_prefix] at h2
        rw [h2] at hh
        exact absurd hh.1 (by simp)
      · rw [Bool.eq_false_iff]
        exact not_tag_match_append (c :: cs) b hh.1 hh.2
    · exact ih (safeChunk_cons c cs ha) s htl hne

/-- `takeTitle` recovers a `<`-free payload up to the following markup. -/
theorem takeTitle_no_lt (t xs : List Char) (ht : ∀ c ∈ t, c ≠ '<') :
    takeTitle (t ++ '<' :: xs) = t := by
  induction t with
  | nil => simp [takeTitle]
  | cons c cs ih =>
    have hc : c ≠ '<' := ht c (List.mem_cons_self c cs)
    rw [List.cons_append, takeTitle, if_neg hc]
    rw [ih (fun d hd => ht d (List.mem_cons_of_mem c hd))]

/-- The entry-open markup is a safe chunk. -/
theorem safe_entryOpen : SafeChunk entryOpen.data := by decide

/-- The entry-close markup is a safe chunk. -/
theorem safe_entryClose : SafeChunk entryClose.data := by decide

/-- The placeholder-close markup is a safe chunk. -/
theorem safe_spanClose : SafeChunk spanClose.data := by decide

/-- The artist placeholder opening markup is a safe chunk. -/
theorem safe_artistOpen : SafeChunk artistOpen.data := by decide

/-- The year placeholder opening markup is a safe chunk. -/
theorem safe_yearOpen : SafeChunk yearOpen.data := by decide

/-- The format placeholder opening markup is a safe chunk. -/
theorem safe_formatOpen : SafeChunk formatOpen.data := by decide

/-- The catalog placeholder opening markup is a safe chunk. -/
theorem safe_catalogOpen : SafeChunk catalogOpen.data := by decide

/-- The cover placeholder opening markup is a safe chunk. -/
theorem safe_coverOpen : SafeChunk coverOpen.data := by decide

/-- The date-added placeholder opening markup is a safe chunk. -/
theorem safe_dateAddedOpen : SafeChunk dateAddedOpen.data := by decide

/-- The title tag minus its head is a safe chunk. -/
theorem safe_tagTail : SafeChunk tagTail := by decide

/-- The surrounding fragment header is a safe chunk. -/
theorem safe_fragmentHeader : SafeChunk fragmentHeader.data := by decide

/-- Scanning at an actual title tag records the following `<`-free payload
and then continues on the character after the tag's head. -/
theorem extractTitles_at_tag (t xs : List Char) (ht : ∀ c ∈ t, c ≠ '<') :
    extractTitles (tagTitle ++ (t ++ '<' :: xs)) =
      t :: extractTitles (t ++ '<' :: xs) := by
  have htag : tagTitle = '<' :: tagTail := by decide
  have hcond : tagTitle.isPrefixOf ('<' :: (tagTail ++ (t ++ '<' :: xs))) = true := by
    rw [List.isPrefixOf_iff_prefix, ← List.cons_append, ← htag]
    exact List.prefix_append _ _
  rw [htag, List.cons_append, extractTitles, if_pos hcond]
  have hlen : tagTitle.length - 1 = tagTail.length := by decide
  rw [hlen, List.drop_left]
  rw [takeTitle_no_lt t xs ht]
  rw [extractTitles_append_safe tagTail _ safe_tagTail]

/-- The per-field cleanliness condition: the rendered field text contains no
`<` character, so it cannot collide with the fixed markup when re-parsed. -/
def CleanStr (s : String) : Prop := ∀ c ∈ s.data, c ≠ '<'

instance (s : String) : Decidable (CleanStr s) := by
  unfold CleanStr
  infer_instance

/-- A record all of whose rendered fields are clean. -/
def CleanRecord (r : ItemRecord) : Prop :=
  CleanStr (renderField r.title) ∧ CleanStr (renderField r.artist) ∧
  CleanStr (renderField r.year) ∧ CleanStr (renderField r.format) ∧
  CleanStr (renderField r.catalogNumber) ∧ CleanStr (renderField r.coverImageUrl) ∧
  CleanStr (renderField r.dateAdded)

instance (r : ItemRecord) : Decidable (CleanRecord r) := by
  unfold CleanRecord
  infer_instance

/-- Scanning one rendered entry block yields exactly its title and hands the
scan on to whatever follows the block. -/
theorem extractTitles_entry (r : ItemRecord) (rest : List Char) (hr : CleanRecord r) :
    extractTitles ((renderEntry r).data ++ rest) =
      (renderField r.title).data :: extractTitles rest := by
  obtain ⟨ht, ha, hy, hf, hc, hco, hd⟩ := hr
  have hscons : ∀ X : List Char, spanClose.data ++ X = '<' :: (spanCloseTail ++ X) := by
    intro X
    rw [show spanClose.data = '<' :: spanCloseTail from rfl, List.cons_append]
  simp only [renderEntry, String.data_append, List.append_assoc]
  rw [extractTitles_append_safe entryOpen.data _ safe_entryOpen]
  rw [show titleOpen.data = tagTitle from rfl]
  rw [hscons]
  rw [extractTitles_at_tag _ _ ht]
  rw [← hscons]
  rw [extractTitles_append_safe _ _ (safeChunk_of_no_lt _ ht)]
  rw [extractTitles_append_safe spanClose.data _ safe_spanClose]
  rw [extractTitles_append_safe artistOpen.data _ safe_artistOpen]
  rw [extractTitles_append_safe _ _ (safeChunk_of_no_lt _ ha)]
  rw [extractTitles_append_safe spanClose.data _ safe_spanClose]
  rw [extractTitles_append_safe yearOpen.data _ safe_yearOpen]
  rw [extractTitles_append_safe _ _ (safeChunk_of_no_lt _ hy)]
  rw [extractTitles_append_safe spanClose.data _ safe_spanClose]
  rw [extractTitles_append_safe formatOpen.data _ safe_formatOpen]
  rw [extractTitles_append_safe _ _ (safeChunk_of_no_lt _ hf)]
  rw [extractTitles_append_safe spanClose.data _ safe_spanClose]
  rw [extractTitles_append_safe catalogOpen.data _ safe_catalogOpen]
  rw [extractTitles_append_safe _ _ (safeChunk_of_no_lt _ hc)]
  rw [extractTitles_append_safe spanClose.data _ safe_spanClose]
  rw [extractTitles_append_safe coverOpen.data _ safe_coverOpen]
  rw [extractTitles_append_safe _ _ (safeChunk_of_no_lt _ hco)]
  rw [extractTitles_append_safe spanClose.data _ safe_spanClose]
  rw [extractTitles_append_safe dateAddedOpen.data _ safe_dateAddedOpen]
  rw [extractTitles_append_safe _ _ (safeChunk_of_no_lt _ hd)]
  rw [extractTitles_append_safe spanClose.data _ safe_spanClose]
  rw [extractTitles_append_safe entryClose.data _ safe_entryClose]

/-- Scanning the concatenated entry blocks yields the titles in input order
and hands the scan on to whatever follows the blocks. -/
theorem extractTitles_entries (rs : List ItemRecord) (rest : List Char)
    (h : ∀ r ∈ rs, CleanRecord r) :
    extractTitles ((renderEntries rs).data ++ rest) =
      rs.map (fun r => (renderField r.title).data) ++ extractTitles rest := by
  induction rs with
  | nil => simp [renderEntries]
  | cons r tl ih =>
    have hr : CleanRecord r := h r (List.mem_cons_self r tl)
    have htl : ∀ q ∈ tl, CleanRecord q := fun q hq => h q (List.mem_cons_of_mem r hq)
    rw [renderEntries, String.data_append, List.append_assoc]
    rw [extractTitles_entry r _ hr]
    rw [ih htl]
    simp

/-- Rendering a record list and re-parsing the fragment recovers the titles
in input order. -/
theorem parseTitles_renderList (rs : List ItemRecord) (h : ∀ r ∈ rs, CleanRecord r) :
    parseTitles (renderList rs) = rs.map (fun r => renderField r.title) := by
  unfold parseTitles renderList
  rw [String.data_append, String.data_append, List.append_assoc]
  rw [extractTitles_append_safe fragmentHeader.data _ safe_fragmentHeader]
  rw [extractTitles_entries rs fragmentFooter.data h]
  rw [show extractTitles fragmentFooter.data = [] from by decide]
  rw [List.append_nil, List.map_map]
  apply List.map_congr_left
  intro r _
  rfl

/-! ## Claim theorems about the renderer -/

/-- C2: rendering a record list to an HTML fragment and re-parsing the
fragment's entry blocks recovers exactly the same count and ordering of
titles as the input list — no re-sorting, no de-duplication.  (The record
fields are assumed to contain no `<`, the markup delimiter.) -/
theorem render_parse_roundtrip (rs : List ItemRecord) (h : ∀ r ∈ rs, CleanRecord r) :
    parseTitles (renderList rs) = rs.map (fun r => renderField r.title) ∧
    (parseTitles (renderList rs)).length = rs.length := by
  refine ⟨parseTitles_renderList rs h, ?_⟩
  rw [parseTitles_renderList rs h, List.length_map]

/-- Two records used as concrete round-trip inputs, with a duplicate title
to observe that no de-duplication happens. -/
def sampleRecords : List ItemRecord :=
  [⟨some "Kind of Blue", some "Miles Davis", some "1959", some "LP",
      some "CL 1355", none, some "2021-01-01"⟩,
   ⟨some "Kind of Blue", none, none, none, none, none, none⟩,
   ⟨none, some "Unknown", none, none, none, none, none⟩]

/-- Witness for C2: the round trip evaluated on `sampleRecords`. -/
theorem render_parse_roundtrip_witness :
    (∀ r ∈ sampleRecords, CleanRecord r) ∧
    (parseTitles (renderList sampleRecords) =
        sampleRecords.map (fun r => renderField r.title) ∧
      (parseTitles (renderList sampleRecords)).length = sampleRecords.length) :=
  ⟨by decide, render_parse_roundtrip sampleRecords (by decide)⟩

/-- Replacing one record by another with the same rendered block leaves the
rendered entry sequence unchanged. -/
theorem renderEntries_congr_mid (pre post : List ItemRecord) (a b : ItemRecord)
    (hab : renderEntry a = renderEntry b) :
    renderEntries (pre ++ a :: post) = renderEntries (pre ++ b :: post) := by
  induction pre with
  | nil =>
    simp only [List.nil_append, renderEntries]
    rw [hab]
  | cons p tl ih =>
    simp only [List.cons_append, renderEntries, List.append_eq]
    rw [ih]

/-- C7: a record missing an optional field renders exactly like the same
record carrying that field as the empty string — the placeholder is present
but blank, never absent or malformed — and rendering a list containing such
a record is total and unaffected outside that blank. -/
theorem render_missing_field_blank (r : ItemRecord) (pre post : List ItemRecord) :
    renderEntry { r with title := none } = renderEntry { r with title := some "" } ∧
    renderEntry { r with artist := none } = renderEntry { r with artist := some "" } ∧
    renderEntry { r with year := none } = renderEntry { r with year := some "" } ∧
    renderEntry { r with format := none } = renderEntry { r with format := some "" } ∧
    renderEntry { r with catalogNumber := none } =
      renderEntry { r with catalogNumber := some "" } ∧
    renderEntry { r with coverImageUrl := none } =
      renderEntry { r with coverImageUrl := some "" } ∧
    renderEntry { r with dateAdded := none } = renderEntry { r with dateAdded := some "" } ∧
    renderList (pre ++ { r with artist := none } :: post) =
      renderList (pre ++ { r with artist := some "" } :: post) := by
  refine ⟨rfl, rfl, rfl, rfl, rfl, rfl, rfl, ?_⟩
  unfold renderList
  rw [renderEntries_congr_mid pre post { r with artist := none }
    { r with artist := some "" } rfl]

/-- C8: rendering the empty record list yields a fragment with zero entry
blocks (no occurrence of the entry-open markup, and no parsed titles) while
the valid surrounding markup of the fixed template is still present. -/
theorem render_empty_list :
    countEntryBlocks (renderList []) = 0 ∧
    parseTitles (renderList []) = [] ∧
    renderList [] = fragmentHeader ++ fragmentFooter ∧
    renderList [] = "<ul class=\"records\"></ul>" := by
  refine ⟨by decide, by decide, ?_, by decide⟩
  show fragmentHeader ++ renderEntries [] ++ fragmentFooter = fragmentHeader ++ fragmentFooter
  rw [show renderEntries [] = "" from rfl, String.append_empty]

/-! ## Run driver: configuration, fetch, render, write -/

/-- Modelled from the spec: the configuration surface — username (required),
access token (required unless offline mode), folder identifier, output
destination, and the optional input-JSON override that enables offline
mode. -/
structure Config where
  username : Option String
  token : Option String
  folderId : String
  output : Option String
  inputJson : Option (List ItemRecord)
deriving DecidableEq

/-- Modelled from the spec: the error kinds fatal to a run. -/
inductive RunError where
  | configurationError
  | fetchFailed (e : FetchError)
  | writeFailed (e : WriteError)
deriving DecidableEq

/-- Modelled from the spec: obtain the record list.  Offline mode reads the
pre-supplied static document and needs no credential; otherwise a missing
access token is a configuration error raised before any request is issued,
and with a token present the paginated fetch runs.  Returns the network
request log alongside the outcome. -/
def getRecords (cfg : Config) (api : Nat → Except FetchError Page) :
    List Nat × Except RunError (List ItemRecord) :=
  match cfg.inputJson with
  | some doc => ([], Except.ok doc)
  | none =>
    match cfg.token with
    | none => ([], Except.error RunError.configurationError)
    | some _ =>
      let res := fetchCollection api
      (res.1,
        match res.2 with
        | Except.error e => Except.error (RunError.fetchFailed e)
        | Except.ok items => Except.ok items)

/-- Modelled from the spec: one whole run against a destination currently
holding `prior`.  The writer either replaces the destination content
wholesale or fails leaving it untouched; a configuration or fetch error
aborts before the write.  Returns the request log, the destination content
after the run, and the reported outcome. -/
def run (cfg : Config) (api : Nat → Except FetchError Page)
    (write : String → Except WriteError Unit) (prior : String) :
    List Nat × String × Except RunError Unit :=
  let res := getRecords cfg api
  match res.2 with
  | Except.error e => (res.1, prior, Except.error e)
  | Except.ok items =>
    match write (renderList items) with
    | Except.error w => (res.1, prior, Except.error (RunError.writeFailed w))
    | Except.ok _ => (res.1, renderList items, Except.ok ())

/-! ## Claim theorems about the run driver -/

/-- C3: with no access token and offline mode disabled, a run fails at once
with a configuration error and an empty request log — before any network
request; with offline mode enabled no credential is needed: the run ignores
the token, issues no request, and never reports a configuration error. -/
theorem missing_token_fails_fast (cfg : Config) (api : Nat → Except FetchError Page)
    (write : String → Except WriteError Unit) (prior : String) :
    (cfg.token = none → cfg.inputJson = none →
      run cfg api write prior = ([], prior, Except.error RunError.configurationError)) ∧
    (∀ doc, cfg.inputJson = some doc →
      (run cfg api write prior).1 = [] ∧
      (run cfg api write prior).2.2 ≠ Except.error RunError.configurationError ∧
      run cfg api write prior = run { cfg with token := none } api write prior) := by
  constructor
  · intro htok hjson
    simp [run, getRecords, htok, hjson]
  · intro doc hjson
    cases hw : write (renderList doc) with
    | error w =>
      refine ⟨?_, ?_, ?_⟩ <;> simp [run, getRecords, hjson, hw]
    | ok u =>
      refine ⟨?_, ?_, ?_⟩ <;> simp [run, getRecords, hjson, hw]

/-- A configuration with no token and no offline input document. -/
def cfgNoToken : Config := ⟨some "demo-user", none, "0", some "recordList.html", none⟩

/-- A configuration running in offline mode on `sampleRecords`. -/
def cfgOffline : Config :=
  ⟨some "demo-user", some "tok", "0", some "recordList.html", some sampleRecords⟩

/-- A writer that always succeeds. -/
def okWrite : String → Except WriteError Unit := fun _ => Except.ok ()

/-- Witness for C3, on a concrete missing-token run and a concrete offline run. -/
theorem missing_token_fails_fast_witness :
    (run cfgNoToken (apiOf []) okWrite "old" =
      ([], "old", Except.error RunError.configurationError)) ∧
    ((run cfgOffline (apiOf []) okWrite "old").1 = [] ∧
      (run cfgOffline (apiOf []) okWrite "old").2.2 ≠
        Except.error RunError.configurationError ∧
      run cfgOffline (apiOf []) okWrite "old" =
        run { cfgOffline with token := none } (apiOf []) okWrite "old") :=
  ⟨(missing_token_fails_fast cfgNoToken (apiOf []) okWrite "old").1 rfl rfl,
    (missing_token_fails_fast cfgOffline (apiOf []) okWrite "old").2 sampleRecords rfl⟩

/-- C5: a run is atomic with respect to the destination: it either fully
replaces the destination content with a freshly rendered fragment and
reports success, or reports a fatal error and leaves the prior destination
content entirely untouched — no partial-success state exists. -/
theorem run_atomic (cfg : Config) (api : Nat → Except FetchError Page)
    (write : String → Except WriteError Unit) (prior : String) :
    (∃ items, (run cfg api write prior).2.2 = Except.ok () ∧
      (run cfg api write prior).2.1 = renderList items) ∨
    ((∃ e, (run cfg api write prior).2.2 = Except.error e) ∧
      (run cfg api write prior).2.1 = prior) := by
  unfold run
  cases hres : (getRecords cfg api).2 with
  | error e =>
    right
    refine ⟨⟨e, ?_⟩, ?_⟩ <;> simp [hres]
  | ok items =>
    cases hw : write (renderList items) with
    | error w =>
      right
      refine ⟨⟨RunError.writeFailed w, ?_⟩, ?_⟩ <;> simp [hres, hw]
    | ok u =>
      left
      refine ⟨items, ?_, ?_⟩ <;> simp [hres, hw]

/-! ## Front-end animations (embedded from js/animations.js) -/

/-- From the source: `var imageDeviceWidth = 478;` (its comment names
`.picture img` on mobile devices). -/
def imageDeviceWidth : Int := 478

/-- From the source: `var textFaderDeviceWidth = 768;`. -/
def textFaderDeviceWidth : Int := 768

/-- The visual effect applied by `showImageIfAppropriate` to the
`.picture img` element. -/
inductive PictureImgEffect where
  | fadeToVisible
  | hide
deriving DecidableEq

/-- From the source, with both global width constants in scope exactly as in
the script: `showImageIfAppropriate` fades `.picture img` to opacity 1 when
the window width is at most `textFaderDeviceWidth` and hides it otherwise.
The body never reads the first global. -/
def showImageIfAppropriateAt (_imgWidth textWidth w : Int) : PictureImgEffect :=
  if w ≤ textWidth then PictureImgEffect.fadeToVisible else PictureImgEffect.hide

/-- From the source: `showImageIfAppropriate` as called in the page, reading
the two globals. -/
def showImageIfAppropriate (w : Int) : PictureImgEffect :=
  showImageIfAppropriateAt imageDeviceWidth textFaderDeviceWidth w

/-- A handle to a DOM element found by `document.getElementById`; `none`
models the null result when no such element exists. -/
structure DomElement where
  elementId : String
deriving DecidableEq

/-- The media operations the background-video code can perform. -/
inductive MediaAction where
  | setMuted
  | setMutedAttr
  | setPlaysinlineAttr
  | playVideo
  | pauseVideo
  | animateVolume (target : Nat)
deriving DecidableEq

/-- From the source: the initial autoplay block `if (videoElement) { ... }`.
When the element is absent nothing at all happens; when present the video is
muted, the attributes are set, and playback is attempted. -/
def initialAutoplaySetup (videoElement : Option DomElement) : List MediaAction :=
  match videoElement with
  | none => []
  | some _ =>
    [MediaAction.setMuted, MediaAction.setMutedAttr, MediaAction.setPlaysinlineAttr,
      MediaAction.playVideo]

/-- From the source: the `visibilitychange` handler.  It returns immediately
when `videoElement` is null; otherwise when the document is hidden it fades
the volume to 0 and pauses, and when shown it plays and fades the volume
to 1. -/
def visibilitychangeHandler (videoElement : Option DomElement) (documentHidden : Bool) :
    List MediaAction :=
  match videoElement with
  | none => []
  | some _ =>
    if documentHidden then
      [MediaAction.animateVolume 0, MediaAction.pauseVideo]
    else
      [MediaAction.playVideo, MediaAction.animateVolume 1]

/-- The outcome of the promise returned by `videoElement.play()`. -/
inductive PlayOutcome where
  | resolved
  | rejected
deriving DecidableEq

/-- A rejected autoplay promise, as surfaced to the page's script. -/
inductive PlayRejection where
  | notAllowed
deriving DecidableEq

/-- The `play()` promise as an exceptional result. -/
def playPromise (o : PlayOutcome) : Except PlayRejection Unit :=
  match o with
  | PlayOutcome.resolved => Except.ok ()
  | PlayOutcome.rejected => Except.error PlayRejection.notAllowed

/-- From the source: the `.catch(function () { ... })` attached to both the
initial and the resume `play()` calls, which swallows the rejection. -/
def catchIgnore (p : Except PlayRejection Unit) : Except PlayRejection Unit :=
  match p with
  | Except.ok u => Except.ok u
  | Except.error _ => Except.ok ()

/-! ## Claim theorems about the animations -/

/-- C9: for every window width `w`, `showImageIfAppropriate` fades the
`.picture img` element to opacity 1 exactly when `w ≤ 768` (the
`textFaderDeviceWidth` constant) and hides it exactly when `w > 768`; the
`imageDeviceWidth` constant (478), whose comment names `.picture img`, is
never consulted by this function. -/
theorem showImage_threshold (w : Int) :
    (showImageIfAppropriate w = PictureImgEffect.fadeToVisible ↔ w ≤ 768) ∧
    (showImageIfAppropriate w = PictureImgEffect.hide ↔ 768 < w) ∧
    (∀ i i' : Int, showImageIfAppropriateAt i textFaderDeviceWidth w =
      showImageIfAppropriateAt i' textFaderDeviceWidth w) ∧
    textFaderDeviceWidth = 768 ∧ imageDeviceWidth = 478 := by
  refine ⟨?_, ?_, fun i i' => rfl, rfl, rfl⟩ <;>
    · unfold showImageIfAppropriate showImageIfAppropriateAt textFaderDeviceWidth
      split <;> constructor <;> intro h <;>
        first
        | rfl
        | omega
        | simp at h

/-- C10: when no `videoBackgroundContainer` element exists, the
`visibilitychange` handler returns immediately — no pause, play or volume
animation, and no dereference of the null handle; the initial autoplay block
likewise does nothing without the element, and a rejected `play()` promise
is swallowed by the attached catch rather than propagated. -/
theorem video_null_safety :
    (∀ hidden : Bool, visibilitychangeHandler none hidden = []) ∧
    initialAutoplaySetup none = [] ∧
    (∀ o : PlayOutcome, catchIgnore (playPromise o) = Except.ok ()) := by
  refine ⟨fun hidden => rfl, rfl, fun o => ?_⟩
  cases o <;> rfl

/-! ## Concrete inputs for the fetcher witnesses -/

/-- A two-page paginated input with three records. -/
def samplePages : List Page :=
  [⟨[⟨some "A", none, none, none, none, none, none⟩,
      ⟨some "B", none, none, none, none, none, none⟩], 1, 2⟩,
    ⟨[⟨some "C", none, none, none, none, none, none⟩], 2, 2⟩]

/-- A paginated input whose first page reports a total of one page. -/
def singlePage : List Page :=
  [⟨[⟨some "Solo", none, none, none, none, none, none⟩], 1, 1⟩]

/-- Witness for C1: the concatenation property evaluated on `samplePages`. -/
theorem fetcher_concatenates_pages_witness :
    ValidPaginated samplePages ∧
    ((fetchCollection (apiOf samplePages)).2 =
        Except.ok ((samplePages.map Page.records).flatten) ∧
      ((samplePages.map Page.records).flatten).length =
        (samplePages.map (fun p => p.records.length)).sum) :=
  ⟨by decide, fetcher_concatenates_pages samplePages (by decide)⟩

/-- Witness for C6: a single-page fetch evaluated on `singlePage`. -/
theorem fetcher_single_page_stop_witness :
    ValidPaginated singlePage ∧ singlePage.length = 1 ∧
    fetchCollection (apiOf singlePage) =
      ([1], Except.ok ((singlePage.getD 0 defaultPage).records)) :=
  ⟨by decide, rfl, (fetcher_single_page_stop singlePage (by decide)).2 rfl⟩

/-- Witness for C4: failing page 2 of `samplePages` aborts the fetch. -/
theorem fetcher_failed_page_aborts_witness :
    ValidPaginated samplePages ∧ 1 ≤ 2 ∧ 2 ≤ samplePages.length ∧
    ((fetchCollection (failAt samplePages 2 FetchError.networkError)).2 =
        Except.error FetchError.networkError ∧
      (fetchCollection (failAt samplePages 2 FetchError.networkError)).1.Nodup ∧
      (fetchCollection (failAt samplePages 2 FetchError.networkError)).1.count 2 ≤ 1) :=
  ⟨by decide, by decide, by decide,
    fetcher_failed_page_aborts samplePages 2 FetchError.networkError
      (by decide) (by decide) (by decide)⟩
